/-
Verification of the release-notes parser and translator scripts:
  .github/scripts/parse_release_notes.py            (namespace Static)
  .github/scripts/parse_release_notes_playwright.py (namespace PW)
  .github/scripts/translate_with_openai.py          (namespace Trans)

The DOM is modelled as a tree of nodes (BeautifulSoup view of the HTML).
Python string operations are modelled by executable char-list functions so
that concrete runs evaluate inside the kernel.
-/
import Mathlib

set_option maxRecDepth 8000

/-! ## String helpers modelling the Python string operations used by the scripts -/

/-- Whitespace as stripped by Python `str.strip()` (ASCII subset). -/
def isWS (c : Char) : Bool :=
  c = ' ' ∨ c = '\t' ∨ c = '\n' ∨ c = '\r' ∨ c = '\x0b' ∨ c = '\x0c'

/-- Python `str.strip()`. -/
def trimS (s : String) : String :=
  ⟨((s.data.dropWhile isWS).reverse.dropWhile isWS).reverse⟩

/-- Python `str.lstrip(': ')`: drop leading colons and spaces. -/
def lstripCS (s : String) : String :=
  ⟨s.data.dropWhile (fun c => c = ':' ∨ c = ' ')⟩

/-- Python `str.lower()` (ASCII letters). -/
def lowerS (s : String) : String :=
  ⟨s.data.map (fun c => if 'A' ≤ c ∧ c ≤ 'Z' then Char.ofNat (c.toNat + 32) else c)⟩

/-- Python `str.replace('-', '.')`. -/
def toDots (s : String) : String :=
  ⟨s.data.map (fun c => if c = '-' then '.' else c)⟩

/-- Python `s.startswith(pre)`. -/
def swith (s pre : String) : Bool := pre.data.isPrefixOf s.data

/-- Python `nd in hay` (substring containment). -/
def hasSub (hay nd : String) : Bool := go hay.data
where go : List Char → Bool
  | [] => nd.data.isEmpty
  | c :: r => nd.data.isPrefixOf (c :: r) || go r

/-- Python `sep.join(l)`. -/
def joinWith (sep : String) : List String → String
  | [] => ""
  | [x] => x
  | x :: y :: r => x ++ sep ++ joinWith sep (y :: r)

/-- Python `''.join(l)`. -/
def concatAll : List String → String
  | [] => ""
  | x :: r => x ++ concatAll r

/-- Whitespace-splitting, as BeautifulSoup splits a `class` attribute value. -/
def wordsGo (cur : List Char) : List Char → List String
  | [] => if cur.isEmpty then [] else [⟨cur.reverse⟩]
  | c :: r =>
    if isWS c then
      if cur.isEmpty then wordsGo [] r else (⟨cur.reverse⟩ : String) :: wordsGo [] r
    else wordsGo (c :: cur) r

def classWords (s : String) : List String := wordsGo [] s.data

/-! ## Version regex: `re.search(r'(\d+[\.\-]\d+[\.\-]\d+)', s)`.
The three character classes (digits, the two separators) are disjoint, so
Python's leftmost greedy match coincides with a maximal-munch scan over
successive start positions. -/

def isSepC (c : Char) : Bool := c = '.' ∨ c = '-'

/-- Try to match `\d+[.\-]\d+[.\-]\d+` at the head of the character list. -/
def matchVerAt (cs : List Char) : Option String :=
  let p1 := cs.span Char.isDigit
  match p1.1 with
  | [] => none
  | _ :: _ =>
    match p1.2 with
    | [] => none
    | s1 :: r2 =>
      if isSepC s1 then
        let p2 := r2.span Char.isDigit
        match p2.1 with
        | [] => none
        | _ :: _ =>
          match p2.2 with
          | [] => none
          | s2 :: r4 =>
            if isSepC s2 then
              let p3 := r4.span Char.isDigit
              match p3.1 with
              | [] => none
              | _ :: _ => some ⟨p1.1 ++ s1 :: p2.1 ++ s2 :: p3.1⟩
            else none
      else none

/-- Leftmost match of the version pattern, as `re.search`. -/
def searchVer : List Char → Option String
  | [] => none
  | c :: r =>
    match matchVerAt (c :: r) with
    | some m => some m
    | none => searchVer r

def regexVersionSearch (s : String) : Option String := searchVer s.data

/-! ## The DOM model -/

/-- A node of the parsed HTML tree: either a text node (`NavigableString`) or an
element (`Tag`) with a tag name, an attribute list and ordered children. -/
inductive Node where
  | text : String → Node
  | elem : String → List (String × String) → List Node → Node

/-- Tag name; text nodes have none (`NavigableString.name is None`). -/
def Node.tag : Node → String
  | .text _ => ""
  | .elem t _ _ => t

def Node.isElem : Node → Bool
  | .text _ => false
  | .elem _ _ _ => true

def attrLookup (k : String) : List (String × String) → Option String
  | [] => none
  | (a, v) :: r => if a = k then some v else attrLookup k r

/-- Python `element.get(key, default)` for string-valued attributes. -/
def Node.attrD (n : Node) (k d : String) : String :=
  match n with
  | .text _ => d
  | .elem _ a _ => (attrLookup k a).getD d

/-- Python `element.get('class', [])` (bs4 splits the class attribute on whitespace). -/
def Node.classes (n : Node) : List String := classWords (n.attrD "class" "")

def Node.hasClass (n : Node) (c : String) : Bool := n.classes.contains c

/- Value equality of bs4 tags (`Tag.__eq__` compares markup, not identity). -/
mutual
def Node.beq : Node → Node → Bool
  | .text a, .text b => a == b
  | .elem t1 a1 c1, .elem t2 a2 c2 => t1 == t2 && a1 == a2 && Node.beqL c1 c2
  | _, _ => false
def Node.beqL : List Node → List Node → Bool
  | [], [] => true
  | a :: as, b :: bs => Node.beq a b && Node.beqL as bs
  | _, _ => false
end

/- All text-node contents, in document order (`self.strings`). -/
mutual
def Node.strings : Node → List String
  | .text s => [s]
  | .elem _ _ cs => stringsL cs
def stringsL : List Node → List String
  | [] => []
  | n :: r => Node.strings n ++ stringsL r
end

/-- Python `element.get_text(strip=True)`: each string stripped, empties skipped,
joined with no separator. -/
def get_text_strip (n : Node) : String :=
  concatAll ((n.strings.map trimS).filter (· ≠ ""))

/-- Python `element.get_text()`. -/
def get_text_raw (n : Node) : String := concatAll n.strings

/- Descendant search in document order (`find_all`); strings are never returned. -/
mutual
def findGo (p : Node → Bool) : List Node → List Node
  | [] => []
  | n :: r => (if n.isElem && p n then [n] else []) ++ findIn p n ++ findGo p r
def findIn (p : Node → Bool) : Node → List Node
  | .text _ => []
  | .elem _ _ cs => findGo p cs
end

/-- `element.find_all(pred)` — descendants of `n` only. -/
def Node.findAll (p : Node → Bool) (n : Node) : List Node := findIn p n

/-- `soup.find(name)` over a whole document. -/
def findTag (doc : List Node) (t : String) : Option Node :=
  (findGo (fun n => n.tag == t) doc).head?

def findWhere (doc : List Node) (p : Node → Bool) : Option Node :=
  (findGo p doc).head?

/-- A traversal context: one element together with its ancestors (nearest
first), its preceding siblings (nearest first) and its following siblings in
order — exactly the navigation `find_previous_sibling` / `find_next_sibling` /
`find_parent` need. -/
structure Ctx where
  ancestors : List Node
  prevRev : List Node
  node : Node
  foll : List Node

/- Contexts of all element descendants, in document order. -/
mutual
def ctxNode (anc : List Node) : Node → List Ctx
  | .text _ => []
  | .elem t a cs => ctxList (Node.elem t a cs :: anc) [] cs
def ctxList (anc : List Node) (prevRev : List Node) : List Node → List Ctx
  | [] => []
  | n :: rest =>
    (if n.isElem then [⟨anc, prevRev, n, rest⟩] else []) ++
      ctxNode anc n ++ ctxList anc (n :: prevRev) rest
end

def allCtx (doc : List Node) : List Ctx := ctxList [] [] doc

/-- Contexts of the strict descendants of one node. -/
def Node.descCtx : Node → List Ctx := ctxNode []

/-- `element.find_next_sibling(tags)` / `find_previous_sibling(tags)`:
first sibling in the given direction whose tag name is in the list. -/
def firstElemTagIn (tags : List String) (l : List Node) : Option Node :=
  l.find? (fun n => tags.contains n.tag)

/-- `element.find_next_sibling()` with no filter: next sibling tag. -/
def firstElem (l : List Node) : Option Node := l.find? Node.isElem

/-! ## Shared output data model (both parser scripts define the same dataclasses) -/

structure Feature where
  title : String
  description : String
  category : String
deriving DecidableEq, Repr

structure ReleaseNotes where
  version : String
  features : List Feature
deriving DecidableEq, Repr

/-! ## Static parser (`parse_release_notes.py`, class `ReleaseNotesParser`) -/

namespace Static

/-- `ReleaseNotesParser.extract_version` (lines 139-155): hardcoded URL substring
check, then the version regex against the page title — only when the title text
contains `"Release"` — with hyphens normalized to dots, else `"Unknown"`. -/
def extract_version (url : String) (doc : List Node) : String :=
  if hasSub url "129-0-0" then "129.0.0"
  else
    match findTag doc "title" with
    | some t =>
      let tt := get_text_raw t
      if hasSub tt "Release" then
        match regexVersionSearch tt with
        | some m => toDots m
        | none => "Unknown"
      else "Unknown"
    | none => "Unknown"

/-- `ReleaseNotesParser.find_content_area` (lines 157-176): CSS selectors in
order, falling back to `soup.find('body')`. -/
def find_content_area (doc : List Node) : Option Node :=
  (findWhere doc (fun n => n.tag == "main")) <|>
  (findWhere doc (fun n => n.tag == "article")) <|>
  (findWhere doc (fun n => n.attrD "role" "" == "main")) <|>
  (findWhere doc (fun n => n.hasClass "content")) <|>
  (findWhere doc (fun n => n.hasClass "main-content")) <|>
  (findWhere doc (fun n => n.attrD "id" "" == "content")) <|>
  (findWhere doc (fun n => n.hasClass "documentation-content")) <|>
  (findTag doc "body")

/-- `ReleaseNotesParser.extract_text_content` (lines 228-238). -/
def extract_text_content (n : Node) : String :=
  if n.tag == "ul" then
    joinWith "\n" ((n.findAll (fun m => m.tag == "li")).map (fun li => "- " ++ get_text_strip li))
  else if n.tag == "ol" then
    joinWith "\n" ((n.findAll (fun m => m.tag == "li")).enum.map
      (fun p => toString (p.1 + 1) ++ ". " ++ get_text_strip p.2))
  else get_text_strip n

/-- `ReleaseNotesParser.parse_accordion` (lines 178-201): only `summary` is a
valid tag name in the `find_all` list (the class-selector strings match no tag);
each summary is paired with its next sibling tag. -/
def parse_accordion (el : Node) (cat : String) : List Feature :=
  ((el.descCtx).filter (fun c => c.node.tag == "summary")).foldl
    (fun acc c =>
      match firstElem c.foll with
      | some content => acc ++ [⟨get_text_strip c.node, extract_text_content content, cat⟩]
      | none => acc)
    []

/-- Sibling walk of `ReleaseNotesParser.parse_feature` (lines 208-216):
`find_next_sibling()` skips strings; stop at `h3`/`h4`; collect non-empty text
of `p`/`ul`/`ol`/`div` blocks. -/
def featureParts : List Node → List String
  | [] => []
  | n :: r =>
    if ¬ n.isElem then featureParts r
    else if n.tag == "h3" ∨ n.tag == "h4" then []
    else if n.tag == "p" ∨ n.tag == "ul" ∨ n.tag == "ol" ∨ n.tag == "div" then
      let t := extract_text_content n
      if t ≠ "" then t :: featureParts r else featureParts r
    else featureParts r

/-- `ReleaseNotesParser.parse_feature` (lines 203-226): `None` when no
description part survives. There is no length cap in this variant. -/
def parse_feature (heading : Node) (foll : List Node) (cat : String) : Option Feature :=
  let parts := featureParts foll
  if parts.isEmpty then none
  else some ⟨get_text_strip heading, joinWith "\n\n" parts, cat⟩

/-- One step of the element loop in `parse_html` (lines 119-134), threading the
running category and the feature list. -/
def parseStep (st : String × List Feature) (c : Ctx) : String × List Feature :=
  let n := c.node
  if (n.tag == "details" ∨ n.tag == "div") ∧ n.classes.contains "accordion" then
    (st.1, st.2 ++ parse_accordion n st.1)
  else if n.tag == "h3" then (get_text_strip n, st.2)
  else if n.tag == "h4" then
    match parse_feature n c.foll st.1 with
    | some f => (st.1, st.2 ++ [f])
    | none => st
  else st

/-- `ReleaseNotesParser.parse_html` (lines 102-137): no deduplication is
performed in this variant. -/
def parse_html (url : String) (doc : List Node) : ReleaseNotes :=
  let version := extract_version url doc
  match find_content_area doc with
  | none => ⟨version, []⟩
  | some ca =>
    let ctxs := (ca.descCtx).filter
      (fun c => ["h3", "h4", "div", "details"].contains c.node.tag)
    ⟨version, (ctxs.foldl parseStep ("General", [])).2⟩

end Static

/-! ## Playwright parser (`parse_release_notes_playwright.py`, class `ReleaseNotesParser`) -/

namespace PW

/-- Base origin hardcoded by the script for relative URL resolution. -/
def base : String := "https://docs.netskope.com"

/-- Relative-URL resolution for link `href` values
(`convert_element_to_markdown`, lines 388-392). -/
def resolve_href (v : String) : String :=
  if swith v "/" then base ++ v
  else if ¬ (swith v "http://" ∨ swith v "https://" ∨ swith v "mailto:" ∨ swith v "#") then
    base ++ "/" ++ v
  else v

/-- Relative-URL resolution for image `src` values (`image_to_markdown`,
lines 441-447): note only `http://` and `https://` are recognized here. -/
def resolve_src (v : String) : String :=
  if swith v "/" then base ++ v
  else if ¬ (swith v "http://" ∨ swith v "https://") then base ++ "/" ++ v
  else v

/-- `ReleaseNotesParser.image_to_markdown` (lines 425-449). -/
def image_to_markdown (img : Node) : String :=
  let src := img.attrD "src" ""
  let alt := img.attrD "alt" ""
  if src = "" then ""
  else if hasSub (lowerS src) "logo" ∨ hasSub (lowerS src) "icon" ∨ swith src "data:" then ""
  else
    let alt2 := if alt = "" then "Image" else alt
    "![" ++ alt2 ++ "](" ++ resolve_src src ++ ")"

/-- `extract_version` (lines 146-159): hardcoded URL substring check, then the
version regex against the page title (no `"Release"` gate in this variant). -/
def extract_version (url : String) (doc : List Node) : String :=
  if hasSub url "129-0-0" then "129.0.0"
  else
    match findTag doc "title" with
    | some t =>
      match regexVersionSearch (get_text_raw t) with
      | some m => toDots m
      | none => "Unknown"
    | none => "Unknown"

/- `ReleaseNotesParser.convert_element_to_markdown` (lines 370-423).
`md_children` is the per-child loop; `md_child` contributes the entries the
loop appends to `result`; the final join is `' '.join(filter(None, result))`. -/
mutual
def convert_element_to_markdown : Node → String
  | .text s => trimS s
  | .elem _ _ cs => joinWith " " ((md_children cs).filter (· ≠ ""))
def md_children : List Node → List String
  | [] => []
  | c :: r => md_child c ++ md_children r
def md_child : Node → List String
  | .text s => if trimS s ≠ "" then [trimS s] else []
  | .elem tg a cs =>
    if tg = "a" then
      let ltext := get_text_strip (.elem tg a cs)
      let href := (attrLookup "href" a).getD ""
      if href ≠ "" then ["[" ++ ltext ++ "](" ++ resolve_href href ++ ")"]
      else [ltext]
    else if tg = "img" then
      let m := image_to_markdown (.elem tg a cs)
      if m ≠ "" then [m] else []
    else if tg = "strong" ∨ tg = "b" then
      let x := joinWith " " ((md_children cs).filter (· ≠ ""))
      if x ≠ "" then ["**" ++ x ++ "**"] else []
    else if tg = "em" ∨ tg = "i" then
      let x := joinWith " " ((md_children cs).filter (· ≠ ""))
      if x ≠ "" then ["*" ++ x ++ "*"] else []
    else if tg = "code" then
      let x := get_text_strip (.elem tg a cs)
      if x ≠ "" then ["`" ++ x ++ "`"] else []
    else if tg = "br" then ["\n"]
    else
      let x := joinWith " " ((md_children cs).filter (· ≠ ""))
      if x ≠ "" then [x] else []
end

/-- `extract_text_content` (lines 316-331), building on the markdown renderer. -/
def extract_text_content (n : Node) : String :=
  if n.tag == "ul" then
    joinWith "\n" ((n.findAll (fun m => m.tag == "li")).map
      (fun li => "- " ++ convert_element_to_markdown li))
  else if n.tag == "ol" then
    joinWith "\n" ((n.findAll (fun m => m.tag == "li")).enum.map
      (fun p => toString (p.1 + 1) ++ ". " ++ convert_element_to_markdown p.2))
  else convert_element_to_markdown n

/-- Image handling inside `get_following_description` (lines 292-299): each
`img` descendant with a content-looking `src` is appended unless its markdown
already occurs in the newline-join of the collected parts. -/
def imgStep (a : List String) (img : Node) : List String :=
  let src := img.attrD "src" ""
  if src ≠ "" ∧ (hasSub src "wp-content/uploads" ∨ swith src "http") then
    let md := image_to_markdown img
    if md ≠ "" ∧ ¬ hasSub (joinWith "\n" a) md then a ++ [md] else a
  else a

/-- Parts contributed by one sibling in `get_following_description`
(lines 289-306): its content images, then its text when longer than 10. -/
def sibParts (a : List String) (n : Node) : List String :=
  let a1 := (n.findAll (fun m => m.tag == "img")).foldl imgStep a
  let t := extract_text_content n
  if t ≠ "" ∧ t.length > 10 then a1 ++ [lstripCS t] else a1

def headTags : List String := ["h3", "h4", "h5", "h6"]

/-- Sibling loop of `get_following_description` (lines 283-312): stop at the
next heading; after each sibling stop early once the newline-join of the parts
exceeds 1000 characters. -/
def gfdGo : List Node → List String → List String
  | [], a => a
  | n :: r, a =>
    if headTags.contains n.tag then a
    else
      let a2 := sibParts a n
      if (joinWith "\n" a2).length > 1000 then a2
      else gfdGo r a2

def gfdParts (foll : List Node) : List String := gfdGo (foll.filter Node.isElem) []

/-- `ReleaseNotesParser.get_following_description` (lines 283-314). -/
def get_following_description (foll : List Node) : String :=
  let ps := gfdParts foll
  if ps.isEmpty then "" else joinWith "\n\n" ps

/-- State threaded through `parse_by_headings` (lines 161-221). -/
structure HState where
  cat : String
  lastH3 : Option Node
  feats : List Feature

/-- The `h3` category test (lines 178-180): the next sibling heading is
another `h3`. -/
def h3IsCat (c : Ctx) : Bool :=
  match firstElemTagIn headTags c.foll with
  | some ne => ne.tag == "h3"
  | none => false

/-- One iteration of the heading loop in `parse_by_headings` (lines 168-219).
`if not text or len(text) < 3` is `text.length < 3` (empty gives length 0).
`description if description else ""` is just the description. Tag equality of
`element != last_h3` and `find_previous_sibling(...) == last_h3` is bs4 value
equality, `Node.beq`. -/
def pbhStep (st : HState) (c : Ctx) : HState :=
  let text := get_text_strip c.node
  if text.length < 3 then st
  else if c.node.tag == "h3" then
    if h3IsCat c then { st with cat := text, lastH3 := some c.node }
    else
      let d := get_following_description c.foll
      let notLast : Bool :=
        match st.lastH3 with
        | some l => ! Node.beq c.node l
        | none => false
      let prevIsLast : Bool :=
        match st.lastH3, firstElemTagIn headTags c.prevRev with
        | some l, some p => Node.beq p l
        | _, _ => false
      if d ≠ "" ∨ notLast = true then
        if prevIsLast then { st with feats := st.feats ++ [⟨text, d, st.cat⟩] }
        else if d ≠ "" then { st with feats := st.feats ++ [⟨text, d, st.cat⟩] }
        else st
      else st
  else
    let d := get_following_description c.foll
    if d ≠ "" then { st with feats := st.feats ++ [⟨text, d, st.cat⟩] } else st

/-- `ReleaseNotesParser.parse_by_headings` (lines 161-221). -/
def parse_by_headings (doc : List Node) : List Feature :=
  (((allCtx doc).filter (fun c => headTags.contains c.node.tag)).foldl
    pbhStep ⟨"General", none, []⟩).feats

/-- Class patterns of `parse_by_classes` (lines 228-233). -/
def patterns : List (String × String × String) :=
  [("feature-item", "feature-title", "feature-description"),
   ("release-item", "release-title", "release-content"),
   ("enhancement", "title", "content"),
   ("card", "card-title", "card-body")]

/-- `ReleaseNotesParser.guess_category` (lines 451-459). -/
def guess_category (c : Ctx) : String :=
  match c.ancestors.find? (fun n => ["section", "div", "article"].contains n.tag) with
  | some parent =>
    match (parent.findAll (fun n => n.tag == "h3" ∨ n.tag == "h2")).head? with
    | some h => get_text_strip h
    | none => "General"
  | none => "General"

/-- `ReleaseNotesParser.parse_by_classes` (lines 223-249). -/
def parse_by_classes (doc : List Node) : List Feature :=
  patterns.foldl
    (fun acc pat =>
      ((allCtx doc).filter (fun c => c.node.hasClass pat.1)).foldl
        (fun a c =>
          match (c.node.findAll (fun n => n.hasClass pat.2.1)).head?,
                (c.node.findAll (fun n => n.hasClass pat.2.2)).head? with
          | some te, some de =>
            a ++ [⟨get_text_strip te, get_text_strip de, guess_category c⟩]
          | _, _ => a)
        acc)
    []

/- `title_elem.extract()` in `parse_by_lists` (line 269): remove the first
`strong`/`b` descendant, preorder. The embedding processes each `li` against
the original tree snapshot, which agrees with the mutating code whenever no
removed element lies inside another processed `li` (no nested lists sharing a
`strong`), as in all inputs considered here. -/
mutual
def rmNode : Node → Node × Bool
  | .text s => (.text s, false)
  | .elem t a cs =>
    let p := rmList cs
    (.elem t a p.1, p.2)
def rmList : List Node → List Node × Bool
  | [] => ([], false)
  | n :: r =>
    if n.tag == "strong" ∨ n.tag == "b" then (r, true)
    else
      let p := rmNode n
      if p.2 then (p.1 :: r, true)
      else
        let q := rmList r
        (n :: q.1, q.2)
end

/-- Inner `li` handling of `parse_by_lists` (lines 263-279). -/
def listItemFeature (cat : String) (li : Node) : List Feature :=
  match (li.findAll (fun n => n.tag == "strong" ∨ n.tag == "b")).head? with
  | some te =>
    let title := get_text_strip te
    let d := convert_element_to_markdown (rmNode li).1
    if title ≠ "" ∧ title.length > 3 then
      [⟨title, if d ≠ "" then d else "No description available", cat⟩]
    else []
  | none => []

/-- `ReleaseNotesParser.parse_by_lists` (lines 251-281); the running category
persists across list elements. -/
def parse_by_lists (doc : List Node) : List Feature :=
  (((allCtx doc).filter (fun c => c.node.tag == "ul" ∨ c.node.tag == "ol")).foldl
    (fun (st : String × List Feature) c =>
      let cat :=
        match firstElemTagIn ["h3", "h4", "h5"] c.prevRev with
        | some p => get_text_strip p
        | none => st.1
      (cat, st.2 ++ (c.node.findAll (fun n => n.tag == "li")).foldl
        (fun a li => a ++ listItemFeature cat li) []))
    ("General", [])).2

/-- Candidate features from the three strategies, in order (lines 125-134). -/
def candidates (doc : List Node) : List Feature :=
  parse_by_headings doc ++ parse_by_classes doc ++ parse_by_lists doc

/-- The dedupe loop of `parse_html` (lines 136-141): first occurrence of each
title wins; the identity key is the title alone. -/
def dedupeGo (seen : List String) : List Feature → List Feature
  | [] => []
  | f :: r =>
    if seen.contains f.title then dedupeGo seen r
    else f :: dedupeGo (f.title :: seen) r

def dedupe_by_title (fs : List Feature) : List Feature := dedupeGo [] fs

/-- `ReleaseNotesParser.parse_html` (lines 116-144). -/
def parse_html (url : String) (doc : List Node) : ReleaseNotes :=
  ⟨extract_version url doc, dedupe_by_title (candidates doc)⟩

end PW

/-! ## Translator (`translate_with_openai.py`) -/

namespace Trans

/-- Output record appended per feature by `translate_features` (lines 106-111). -/
structure TransFeature where
  category : String
  title : String
  title_en : String
  description : String
deriving DecidableEq, Repr

/-- User prompt built by `translate_text` (lines 32-35). -/
def buildUserPrompt (text context : String) : String :=
  let up := "Translate to Japanese:\n\n" ++ text
  if context ≠ "" then "Context: " ++ context ++ "\n\n" ++ up else up

/-- `translate_text` (lines 14-51). The OpenAI call is the external
collaborator, modelled as a function from the user prompt to either the
translated content or an error; on error the function returns the inline
error marker followed by the original text (line 51). -/
def translate_text (client : String → Except String String)
    (text : String) (context : String) : String :=
  match client (buildUserPrompt text context) with
  | .ok r => trimS r
  | .error e => "[翻訳エラー: " ++ e ++ "]\n\n" ++ text

/-- `create_bilingual_content` (lines 54-67); the `category` parameter is
accepted and ignored by the source too. -/
def create_bilingual_content (title content title_ja content_ja _category : String) : String :=
  "## " ++ title_ja ++ "\n\n" ++ content_ja ++ "\n\n" ++
  "<details>\n" ++ "<summary>View original English version</summary>\n\n" ++
  "### " ++ title ++ "\n\n" ++ content ++ "\n\n" ++ "</details>"

/-- Loop body of `translate_features` (lines 80-115) for one feature. -/
def translate_one (client : String → Except String String) (f : Feature) : TransFeature :=
  let title_ja := translate_text client f.title ("Category: " ++ f.category)
  let description_ja := translate_text client f.description
    ("Feature: " ++ f.title ++ ", Category: " ++ f.category)
  ⟨f.category, title_ja, f.title,
    create_bilingual_content f.title f.description title_ja description_ja f.category⟩

/-- `translate_features` (lines 70-117): every feature is processed in order
and appended; the progress prints and rate-limit sleeps are I/O only. -/
def translate_features (client : String → Except String String)
    (features : List Feature) : List TransFeature :=
  features.map (translate_one client)

end Trans

/-! ## Concrete documents used by the claim instances -/

/-- Spec scenario `<h3>Cloud TAP</h3><h4>Enhanced Security</h4><p>Supports IAM Roles.</p>`. -/
def c3doc : List Node :=
  [Node.elem "h3" [] [.text "Cloud TAP"],
   Node.elem "h4" [] [.text "Enhanced Security"],
   Node.elem "p" [] [.text "Supports IAM Roles."]]

/-- Spec scenario `<h4>Orphan Heading</h4><h4>Next Heading</h4>` followed by content. -/
def c2doc : List Node :=
  [Node.elem "h4" [] [.text "Orphan Heading"],
   Node.elem "h4" [] [.text "Next Heading"],
   Node.elem "p" [] [.text "Some description text here."]]

/-- Two identical `h4` features under one category, inside a `body`. -/
def c1doc : List Node :=
  [Node.elem "body" []
    [Node.elem "h3" [] [.text "Cat"],
     Node.elem "h4" [] [.text "Dup"],
     Node.elem "p" [] [.text "x"],
     Node.elem "h4" [] [.text "Dup"],
     Node.elem "p" [] [.text "x"]]]

/-- Two candidate features with the same title for the playwright dedupe. -/
def c1pwdoc : List Node :=
  [Node.elem "h4" [] [.text "Feature AAA"],
   Node.elem "p" [] [.text "first long description"],
   Node.elem "h4" [] [.text "Feature AAA"],
   Node.elem "p" [] [.text "second long description"]]

def c1g : Feature := ⟨"Feature AAA", "first long description", "General"⟩

/-- A `card` container whose title element is empty. -/
def c8doc : List Node :=
  [Node.elem "div" [("class", "card")]
    [Node.elem "span" [("class", "card-title")] [],
     Node.elem "span" [("class", "card-body")] [.text "body text"]]]

/-- An `h3` category followed by an `h3` title with only short content after
it: the h3-as-title branch emits this title with an empty description even
though content follows the heading. -/
def c8h3doc : List Node :=
  [Node.elem "h3" [] [.text "Alpha Category"],
   Node.elem "h3" [] [.text "Beta Feature"],
   Node.elem "p" [] [.text "tiny note"]]

/-- A heading with a valid feature for the C8 witness. -/
def c8okdoc : List Node :=
  [Node.elem "h4" [] [.text "Valid Feature"],
   Node.elem "p" [] [.text "A sufficiently long description."]]

def c8okFeature : Feature :=
  ⟨"Valid Feature", "A sufficiently long description.", "General"⟩

/-! ## C2 — empty-description heading handling -/

/-- C2 (counterexample): on `<h4>Orphan Heading</h4><h4>Next Heading</h4>
<p>Some description text here.</p>` both variants emit no feature for the
orphan heading, but the next feature is tagged `"General"`, not
`"Orphan Heading"`: the orphan heading does not become the active category. -/
theorem c2_counterexample :
    PW.parse_by_headings c2doc
      = [⟨"Next Heading", "Some description text here.", "General"⟩] ∧
    (Static.parse_html "http://example.com/notes" [Node.elem "body" [] c2doc]).features
      = [⟨"Next Heading", "Some description text here.", "General"⟩] ∧
    "General" ≠ "Orphan Heading" := by
  refine ⟨by decide, by decide, by decide⟩

/-- C2 (amended): a candidate title heading of rank `h4`-`h6` whose extracted
description is empty produces no feature and leaves the whole parser state —
including the running category — unchanged; the heading text never becomes the
active category. -/
theorem c2_spec (st : PW.HState) (c : Ctx)
    (htag : c.node.tag = "h4" ∨ c.node.tag = "h5" ∨ c.node.tag = "h6")
    (hd : PW.get_following_description c.foll = "") :
    PW.pbhStep st c = st := by
  unfold PW.pbhStep
  rcases htag with h | h | h <;> rw [h] <;> simp [hd]

/-- C2 (witness): the amended theorem at the orphan-heading context. -/
theorem c2_witness :
    PW.pbhStep ⟨"General", none, []⟩
      ⟨[], [], Node.elem "h4" [] [.text "Orphan Heading"],
        [Node.elem "h4" [] [.text "Next Heading"]]⟩
    = ⟨"General", none, []⟩ :=
  c2_spec _ _ (Or.inl rfl) (by decide)

/-! ## C3 — end-to-end scenario -/

/-- C3 (counterexample): on the spec scenario document the playwright
`parse_html` yields the feature with category `"General"`, not `"Cloud TAP"`
(an `h3` followed by an `h4` is not classified as a category), and the static
`parse_html` on the bare fragment yields no features at all (no content area). -/
theorem c3_counterexample :
    (PW.parse_html "http://example.com/notes" c3doc).features
      = [⟨"Enhanced Security", "Supports IAM Roles.", "General"⟩] ∧
    (PW.parse_html "http://example.com/notes" c3doc).features
      ≠ [⟨"Enhanced Security", "Supports IAM Roles.", "Cloud TAP"⟩] ∧
    (Static.parse_html "http://example.com/notes" c3doc).features = [] := by
  refine ⟨by decide, by decide, by decide⟩

/-- C3 (amended): the static variant run over the scenario wrapped in a `body`
(so a content area exists) yields exactly the claimed feature with category
`"Cloud TAP"`; the playwright variant yields the same title and description
with category `"General"`; the static variant on the bare fragment yields
nothing. -/
theorem c3_spec :
    (Static.parse_html "http://example.com/notes" [Node.elem "body" [] c3doc]).features
      = [⟨"Enhanced Security", "Supports IAM Roles.", "Cloud TAP"⟩] ∧
    (PW.parse_html "http://example.com/notes" c3doc).features
      = [⟨"Enhanced Security", "Supports IAM Roles.", "General"⟩] ∧
    (Static.parse_html "http://example.com/notes" c3doc).features = [] := by
  refine ⟨by decide, by decide, by decide⟩

/-! ## C5 — URL resolution for links and images -/

/-- C5 (counterexample): an image `src` starting with `mailto:` is not left
unchanged — unlike a link `href`, the image resolver only recognizes
`http://` and `https://`, so the value is prefixed with the base origin. -/
theorem c5_counterexample :
    PW.image_to_markdown
        (.elem "img" [("src", "mailto:sales@example.com"), ("alt", "Mail")] [])
      = "![Mail](https://docs.netskope.com/mailto:sales@example.com)" ∧
    PW.resolve_src "mailto:sales@example.com" ≠ "mailto:sales@example.com" ∧
    PW.resolve_href "mailto:sales@example.com" = "mailto:sales@example.com" := by
  refine ⟨by decide, by decide, by decide⟩

/-- C5 (amended): both resolvers prefix values starting with `/` with the base
origin and leave `http://`/`https://` values unchanged; but the recognized
scheme sets differ: `href` also treats `mailto:` and `#` values as absolute,
while `src` prefixes them with the base origin plus `/`; all remaining values
are prefixed with the base origin plus `/` by both. -/
theorem c5_spec (v : String) :
    (swith v "/" = true →
      PW.resolve_href v = PW.base ++ v ∧ PW.resolve_src v = PW.base ++ v) ∧
    (swith v "/" = false → (swith v "http://" = true ∨ swith v "https://" = true) →
      PW.resolve_href v = v ∧ PW.resolve_src v = v) ∧
    (swith v "/" = false → swith v "http://" = false → swith v "https://" = false →
      (swith v "mailto:" = true ∨ swith v "#" = true) →
      PW.resolve_href v = v ∧ PW.resolve_src v = PW.base ++ "/" ++ v) ∧
    (swith v "/" = false → swith v "http://" = false → swith v "https://" = false →
      swith v "mailto:" = false → swith v "#" = false →
      PW.resolve_href v = PW.base ++ "/" ++ v ∧ PW.resolve_src v = PW.base ++ "/" ++ v) := by
  unfold PW.resolve_href PW.resolve_src
  refine ⟨fun h1 => ?_, fun h1 h2 => ?_, fun h1 h2 h3 h4 => ?_, fun h1 h2 h3 h4 h5 => ?_⟩
  · simp [h1]
  · rcases h2 with h2 | h2 <;> simp [h1, h2]
  · rcases h4 with h4 | h4 <;> simp [h1, h2, h3, h4]
  · simp [h1, h2, h3, h4, h5]

/-- C5 (witness): the amended theorem at a `mailto:` value, exhibiting the
divergence between the two resolvers. -/
theorem c5_witness :
    PW.resolve_href "mailto:someone@example.com" = "mailto:someone@example.com" ∧
    PW.resolve_src "mailto:someone@example.com"
      = PW.base ++ "/" ++ "mailto:someone@example.com" :=
  (c5_spec "mailto:someone@example.com").2.2.1 (by decide) (by decide) (by decide)
    (Or.inl (by decide))

/-! ## C7 — script/style/noscript in the markdown renderer -/

/-- C7 (counterexample): a `script` child contributes its text to the rendered
markdown — the renderer has no exclusion rule for `script`/`style`/`noscript`
(and the static `get_text`-based extraction includes script text as well),
so the output is not `"Hi"` with zero contribution from the script node. -/
theorem c7_counterexample :
    PW.convert_element_to_markdown
        (.elem "p" [] [.text " Hi ", .elem "script" [] [.text "var x = 1;"]])
      = "Hi var x = 1;" ∧
    PW.convert_element_to_markdown
        (.elem "p" [] [.text " Hi ", .elem "script" [] [.text "var x = 1;"]]) ≠ "Hi" ∧
    get_text_strip (.elem "div" [] [.elem "script" [] [.text "var x = 1;"]])
      = "var x = 1;" := by
  refine ⟨by decide, by decide, by decide⟩

/-- C7 (amended): the renderer treats `script`, `style` and `noscript` children
exactly like generic containers such as `div`: it recurses into their children
and flattens the result, so their text content is rendered, not excluded. -/
theorem c7_spec (a : List (String × String)) (cs : List Node) :
    PW.md_child (Node.elem "script" a cs) = PW.md_child (Node.elem "div" a cs) ∧
    PW.md_child (Node.elem "style" a cs) = PW.md_child (Node.elem "div" a cs) ∧
    PW.md_child (Node.elem "noscript" a cs) = PW.md_child (Node.elem "div" a cs) :=
  ⟨rfl, rfl, rfl⟩

/-! ## C9 — per-item translation failure handling -/

/-- C9: when the translation collaborator fails on one call, `translate_text`
substitutes the inline error marker followed by the original untranslated
text; `translate_features` is total, preserves the batch length, and
processes every feature independently of the others, so one item's failure
never aborts the batch. -/
theorem c9_spec (client : String → Except String String) :
    (∀ text ctx e, client (Trans.buildUserPrompt text ctx) = Except.error e →
      Trans.translate_text client text ctx = "[翻訳エラー: " ++ e ++ "]\n\n" ++ text) ∧
    (∀ fs, (Trans.translate_features client fs).length = fs.length) ∧
    (∀ fs1 fs2 f, Trans.translate_features client (fs1 ++ f :: fs2)
      = Trans.translate_features client fs1
        ++ Trans.translate_one client f :: Trans.translate_features client fs2) := by
  refine ⟨fun text ctx e h => ?_, fun fs => ?_, fun fs1 fs2 f => ?_⟩
  · unfold Trans.translate_text
    rw [h]
  · simp [Trans.translate_features]
  · simp [Trans.translate_features]

/-- C9 (witness): a failing client on a concrete feature text. -/
theorem c9_witness :
    Trans.translate_text (fun _ => Except.error "rate limit")
      "Original text" "Category: Security"
    = "[翻訳エラー: rate limit]\n\nOriginal text" :=
  (c9_spec (fun _ => Except.error "rate limit")).1
    "Original text" "Category: Security" "rate limit" rfl

/-! ## C10 — frame properties of translate_features -/

/-- C10: `translate_features` returns one record per input feature in the same
order; each output record's `category` equals the input feature's category and
its `title_en` equals the input feature's title — only `title` and
`description` carry new (translated/bilingual) content. -/
theorem c10_spec (client : String → Except String String)
    (fs : List Feature) (i : Nat) :
    (Trans.translate_features client fs).length = fs.length ∧
    ((Trans.translate_features client fs)[i]?).map Trans.TransFeature.category
      = (fs[i]?).map Feature.category ∧
    ((Trans.translate_features client fs)[i]?).map Trans.TransFeature.title_en
      = (fs[i]?).map Feature.title := by
  refine ⟨by simp [Trans.translate_features], ?_, ?_⟩ <;>
    simp [Trans.translate_features, Trans.translate_one, Function.comp] <;>
    cases fs[i]? <;> rfl

/-! ## C4 — version resolution -/

/-- C4 (counterexample): a URL containing `release-130-0-0` matches the version
pattern, yet both variants return `"Unknown"` when no page title exists — the
URL is never pattern-matched (only the hardcoded substring `129-0-0` is
checked) and there is no heading fallback. The claim predicts `"130.0.0"`. -/
theorem c4_counterexample :
    Static.extract_version
        "https://docs.netskope.com/en/new-features-and-enhancements-in-release-130-0-0" []
      = "Unknown" ∧
    PW.extract_version
        "https://docs.netskope.com/en/new-features-and-enhancements-in-release-130-0-0" []
      = "Unknown" ∧
    regexVersionSearch
        "https://docs.netskope.com/en/new-features-and-enhancements-in-release-130-0-0"
      = some "130-0-0" ∧
    toDots "130-0-0" = "130.0.0" ∧
    "Unknown" ≠ "130.0.0" := by
  refine ⟨by decide, by decide, by decide, by decide, by decide⟩

/-- C4 (amended): both variants return `"129.0.0"` whenever the URL contains
the literal substring `129-0-0` (a hardcoded check, not a pattern match);
otherwise the version pattern is matched against the page title text —
in the static variant only when that text contains `"Release"` — with hyphens
normalized to dots; with no title (or no match, or no `"Release"` for the
static variant) the result is `"Unknown"`. No heading fallback exists. -/
theorem c4_spec (url : String) (doc : List Node) :
    (hasSub url "129-0-0" = true →
      Static.extract_version url doc = "129.0.0" ∧
      PW.extract_version url doc = "129.0.0") ∧
    (hasSub url "129-0-0" = false → findTag doc "title" = none →
      Static.extract_version url doc = "Unknown" ∧
      PW.extract_version url doc = "Unknown") ∧
    (∀ t v, hasSub url "129-0-0" = false → findTag doc "title" = some t →
      regexVersionSearch (get_text_raw t) = some v →
      PW.extract_version url doc = toDots v ∧
      (hasSub (get_text_raw t) "Release" = true →
        Static.extract_version url doc = toDots v)) ∧
    (∀ t, hasSub url "129-0-0" = false → findTag doc "title" = some t →
      hasSub (get_text_raw t) "Release" = false →
      Static.extract_version url doc = "Unknown") ∧
    (∀ t, hasSub url "129-0-0" = false → findTag doc "title" = some t →
      regexVersionSearch (get_text_raw t) = none →
      Static.extract_version url doc = "Unknown" ∧
      PW.extract_version url doc = "Unknown") := by
  unfold Static.extract_version PW.extract_version
  refine ⟨fun h => ?_, fun h hf => ?_, fun t v h hf hm => ?_, fun t h hf hr => ?_,
    fun t h hf hm => ?_⟩
  · simp [h]
  · simp [h, hf]
  · constructor
    · simp [h, hf, hm]
    · intro hrel
      simp [h, hf, hm, hrel]
  · simp [h, hf, hr]
  · constructor
    · by_cases hrel : hasSub (get_text_raw t) "Release" = true
      · simp [h, hf, hm, hrel]
      · have hrel2 : hasSub (get_text_raw t) "Release" = false := by
          cases hh : hasSub (get_text_raw t) "Release"
          · rfl
          · exact absurd hh hrel
        simp [h, hf, hrel2]
    · simp [h, hf, hm]

/-- C4 (witness): the amended theorem at a URL containing `129-0-0`. -/
theorem c4_witness :
    Static.extract_version
        "https://docs.netskope.com/en/new-features-and-enhancements-in-release-129-0-0" []
      = "129.0.0" ∧
    PW.extract_version
        "https://docs.netskope.com/en/new-features-and-enhancements-in-release-129-0-0" []
      = "129.0.0" :=
  (c4_spec
    "https://docs.netskope.com/en/new-features-and-enhancements-in-release-129-0-0" []).1
    (by decide)

/-! ## C1 — dedupe behaviour of the two parse_html variants -/

lemma dedupeGo_not_seen (fs : List Feature) :
    ∀ seen : List String, ∀ g ∈ PW.dedupeGo seen fs, seen.contains g.title = false := by
  induction fs with
  | nil => intro seen g hg; simp [PW.dedupeGo] at hg
  | cons f r ih =>
    intro seen g hg
    unfold PW.dedupeGo at hg
    split at hg
    case isTrue hc => exact ih seen g hg
    case isFalse hc =>
      rcases List.mem_cons.mp hg with rfl | hg'
      · cases hh : seen.contains g.title
        · rfl
        · exact absurd hh hc
      · have h2 := ih (f.title :: seen) g hg'
        simp only [List.contains_cons, Bool.or_eq_false_iff] at h2
        exact h2.2

lemma dedupeGo_pairwise (fs : List Feature) :
    ∀ seen : List String,
      (PW.dedupeGo seen fs).Pairwise (fun a b => a.title ≠ b.title) := by
  induction fs with
  | nil => intro seen; simp [PW.dedupeGo]
  | cons f r ih =>
    intro seen
    unfold PW.dedupeGo
    split
    · exact ih seen
    · refine List.Pairwise.cons (fun b hb => ?_) (ih (f.title :: seen))
      have h2 := dedupeGo_not_seen r (f.title :: seen) b hb
      simp only [List.contains_cons, Bool.or_eq_false_iff, beq_eq_false_iff_ne] at h2
      exact (h2.1).symm

lemma dedupeGo_first (fs : List Feature) :
    ∀ seen : List String, ∀ g ∈ PW.dedupeGo seen fs,
      fs.find? (fun c => c.title == g.title) = some g := by
  induction fs with
  | nil => intro seen g hg; simp [PW.dedupeGo] at hg
  | cons f r ih =>
    intro seen g hg
    unfold PW.dedupeGo at hg
    split at hg
    case isTrue hc =>
      have hgr := ih seen g hg
      have hgs := dedupeGo_not_seen r seen g hg
      have hne : (f.title == g.title) = false := by
        refine beq_eq_false_iff_ne.mpr (fun he => ?_)
        rw [← he] at hgs
        rw [hc] at hgs
        cases hgs
      simp [List.find?_cons, hne, hgr]
    case isFalse hc =>
      rcases List.mem_cons.mp hg with rfl | hg'
      · simp [List.find?_cons]
      · have hgr := ih (f.title :: seen) g hg'
        have hgs := dedupeGo_not_seen r (f.title :: seen) g hg'
        simp only [List.contains_cons, Bool.or_eq_false_iff, beq_eq_false_iff_ne] at hgs
        have hne : (f.title == g.title) = false :=
          beq_eq_false_iff_ne.mpr (fun he => hgs.1 he.symm)
        simp [List.find?_cons, hne, hgr]

lemma dedupeGo_cover (fs : List Feature) :
    ∀ seen : List String, ∀ f ∈ fs, seen.contains f.title = false →
      ∃ g ∈ PW.dedupeGo seen fs, g.title = f.title := by
  induction fs with
  | nil => intro seen f hf; simp at hf
  | cons f0 r ih =>
    intro seen f hf hseen
    unfold PW.dedupeGo
    split
    case isTrue hc =>
      rcases List.mem_cons.mp hf with rfl | hf'
      · rw [hseen] at hc; cases hc
      · exact ih seen f hf' hseen
    case isFalse hc =>
      rcases List.mem_cons.mp hf with rfl | hf'
      · exact ⟨f, List.mem_cons_self _ _, rfl⟩
      · by_cases ht : (f0.title :: seen).contains f.title = true
        · have he : f.title = f0.title := by
            simp only [List.contains_cons, Bool.or_eq_true, beq_iff_eq] at ht
            rcases ht with h | h
            · exact h
            · rw [h] at hseen; cases hseen
          exact ⟨f0, List.mem_cons_self _ _, he.symm⟩
        · have ht2 : (f0.title :: seen).contains f.title = false := by
            cases hh : (f0.title :: seen).contains f.title
            · rfl
            · exact absurd hh ht
          obtain ⟨g, hg, he⟩ := ih (f0.title :: seen) f hf' ht2
          exact ⟨g, List.mem_cons_of_mem _ hg, he⟩

/-- C1 (counterexample): the static `parse_html` performs no deduplication —
on a document with two identical `h4` features under one category it returns
two features with the same `(title, category)` identity key. -/
theorem c1_counterexample :
    (Static.parse_html "http://example.com/notes" c1doc).features
      = [⟨"Dup", "x", "Cat"⟩, ⟨"Dup", "x", "Cat"⟩] ∧
    ¬ (Static.parse_html "http://example.com/notes" c1doc).features.Pairwise
        (fun a b => ¬ (a.title = b.title ∧ a.category = b.category)) := by
  have h : (Static.parse_html "http://example.com/notes" c1doc).features
      = [⟨"Dup", "x", "Cat"⟩, ⟨"Dup", "x", "Cat"⟩] := by decide
  refine ⟨h, fun hp => ?_⟩
  rw [h] at hp
  exact (List.pairwise_cons.mp hp).1 _ (List.mem_cons_self _ _) ⟨rfl, rfl⟩

/-- C1 (amended): the playwright `parse_html` deduplicates the candidate
sequence by title alone, in first-seen order: output titles are pairwise
distinct (hence `(title, category)` keys are pairwise distinct a fortiori),
every output feature is the first candidate bearing its title, and every
candidate title survives; the static variant deduplicates nothing. -/
theorem c1_spec (url : String) (doc : List Node) :
    (PW.parse_html url doc).features = PW.dedupe_by_title (PW.candidates doc) ∧
    (PW.parse_html url doc).features.Pairwise (fun a b => a.title ≠ b.title) ∧
    (PW.parse_html url doc).features.Pairwise
      (fun a b => ¬ (a.title = b.title ∧ a.category = b.category)) ∧
    (∀ g ∈ (PW.parse_html url doc).features,
      (PW.candidates doc).find? (fun c => c.title == g.title) = some g) ∧
    (∀ f ∈ PW.candidates doc,
      ∃ g ∈ (PW.parse_html url doc).features, g.title = f.title) := by
  refine ⟨rfl, dedupeGo_pairwise _ [], (dedupeGo_pairwise _ []).imp ?_,
    fun g hg => dedupeGo_first _ [] g hg,
    fun f hf => dedupeGo_cover _ [] f hf rfl⟩
  exact fun h hk => h hk.1

/-- C1 (witness): the amended theorem on a document with a duplicated title —
the surviving feature is the first candidate with that title. -/
theorem c1_witness :
    (PW.candidates c1pwdoc).find? (fun c => c.title == c1g.title) = some c1g :=
  (c1_spec "http://example.com/notes" c1pwdoc).2.2.2.1 c1g (by decide)

/-! ## C8 — title/description invariants of the final features -/

lemma pbhStep_titles (st : PW.HState) (c : Ctx) :
    ∀ f ∈ (PW.pbhStep st c).feats, f ∈ st.feats ∨ 3 ≤ f.title.length := by
  intro f hf
  unfold PW.pbhStep at hf
  by_cases hlen : (get_text_strip c.node).length < 3
  · rw [if_pos hlen] at hf
    exact Or.inl hf
  · rw [if_neg hlen] at hf
    have h3 : 3 ≤ (get_text_strip c.node).length := Nat.le_of_not_lt hlen
    dsimp only at hf
    repeat' split at hf
    all_goals
      first
        | exact Or.inl hf
        | (rcases List.mem_append.mp hf with h | h
           · exact Or.inl h
           · rw [List.mem_singleton.mp h]
             exact Or.inr h3)

lemma pbh_fold (ctxs : List Ctx) :
    ∀ st : PW.HState, (∀ f ∈ st.feats, 3 ≤ f.title.length) →
      ∀ f ∈ (ctxs.foldl PW.pbhStep st).feats, 3 ≤ f.title.length := by
  induction ctxs with
  | nil => intro st hst; exact hst
  | cons c r ih =>
    intro st hst
    simp only [List.foldl_cons]
    refine ih (PW.pbhStep st c) (fun f hf => ?_)
    rcases pbhStep_titles st c f hf with h | h
    · exact hst f h
    · exact h

lemma pbhStep_desc (st : PW.HState) (c : Ctx)
    (htag : c.node.tag = "h4" ∨ c.node.tag = "h5" ∨ c.node.tag = "h6") :
    ∀ f ∈ (PW.pbhStep st c).feats, f ∈ st.feats ∨ f.description ≠ "" := by
  intro f hf
  unfold PW.pbhStep at hf
  by_cases hlen : (get_text_strip c.node).length < 3
  · rw [if_pos hlen] at hf
    exact Or.inl hf
  · rw [if_neg hlen] at hf
    have hne : (c.node.tag == "h3") = false := by
      rcases htag with h | h | h <;> rw [h] <;> rfl
    rw [if_neg (by simp [hne])] at hf
    dsimp only at hf
    split at hf
    next hd =>
      rcases List.mem_append.mp hf with h | h
      · exact Or.inl h
      · rw [List.mem_singleton.mp h]
        exact Or.inr hd
    next hd => exact Or.inl hf

/-- C8 (counterexample): both conjuncts of the claim fail on the playwright
`parse_html`. (i) The class-pattern strategy puts a feature with an empty
title into the final sequence (a `card` container whose `card-title` element
is empty). (ii) The h3-as-title branch emits a feature whose description is
empty even though content follows its heading: after a category `h3`, an `h3`
title followed by the paragraph `tiny note` (non-empty text, but at most 10
characters, so filtered) yields a feature with `description = ""`. -/
theorem c8_counterexample :
    ((PW.parse_html "http://example.com/notes" c8doc).features
        = [⟨"", "body text", "General"⟩] ∧
      ∃ f ∈ (PW.parse_html "http://example.com/notes" c8doc).features, f.title = "") ∧
    ((PW.parse_html "http://example.com/notes" c8h3doc).features
        = [⟨"Beta Feature", "", "Alpha Category"⟩] ∧
      get_text_strip (Node.elem "p" [] [.text "tiny note"]) = "tiny note" ∧
      "tiny note" ≠ "") := by
  refine ⟨⟨by decide, ⟨"", "body text", "General"⟩, by decide, rfl⟩,
    by decide, by decide, by decide⟩

/-- C8 (amended): every feature emitted by the heading-based strategy has a
title of length at least 3 (in particular non-empty), and an `h4`-`h6` heading
only ever contributes a feature with a non-empty description; but the
class-pattern strategy can put an empty-titled feature into the final
sequence, and the h3-as-title branch can emit a feature with an empty
description even when short content follows its heading, so neither conjunct
of the original claim holds of the final features. -/
theorem c8_spec (doc : List Node) :
    (∀ f ∈ PW.parse_by_headings doc, 3 ≤ f.title.length ∧ f.title ≠ "") ∧
    (∀ (st : PW.HState) (c : Ctx),
      (c.node.tag = "h4" ∨ c.node.tag = "h5" ∨ c.node.tag = "h6") →
      ∀ f ∈ (PW.pbhStep st c).feats, f ∈ st.feats ∨ f.description ≠ "") := by
  constructor
  · intro f hf
    unfold PW.parse_by_headings at hf
    have h3 := pbh_fold _ _ (by intro f hf; simp at hf) f hf
    refine ⟨h3, fun he => ?_⟩
    rw [he] at h3
    simp at h3
  · exact fun st c htag => pbhStep_desc st c htag

/-- C8 (witness): the amended theorem on a concrete heading-derived feature,
exercising both the title bound and the non-empty-description property of the
`h4` step. -/
theorem c8_witness :
    (3 ≤ c8okFeature.title.length ∧ c8okFeature.title ≠ "") ∧
    (c8okFeature ∈ (PW.HState.mk "General" none []).feats ∨
      c8okFeature.description ≠ "") :=
  ⟨(c8_spec c8okdoc).1 c8okFeature (by decide),
   (c8_spec c8okdoc).2 (PW.HState.mk "General" none [])
     ⟨[], [], Node.elem "h4" [] [.text "Valid Feature"],
       [Node.elem "p" [] [.text "A sufficiently long description."]]⟩
     (Or.inl rfl) c8okFeature (by decide)⟩

/-! ## C6 — description length cap -/

namespace PW

/-- Upper bound on what one sibling can add to the newline-join of the
collected parts in `get_following_description`: all of its image markdowns and
its text, each with one separator. -/
def sibBound (n : Node) : Nat :=
  ((n.findAll (fun m => m.tag == "img")).map
    (fun i => (image_to_markdown i).length + 1)).sum
  + (extract_text_content n).length + 1

def maxSibBound : List Node → Nat
  | [] => 0
  | n :: r => max (sibBound n) (maxSibBound r)

end PW

lemma joinWith_append_le (sep x : String) (l : List String) :
    (joinWith sep (l ++ [x])).length ≤ (joinWith sep l).length + x.length + sep.length := by
  induction l with
  | nil =>
    simp only [List.nil_append, joinWith]
    omega
  | cons y t ih =>
    cases t with
    | nil =>
      simp only [List.cons_append, List.nil_append, joinWith, String.length_append]
      omega
    | cons z r =>
      show (y ++ sep ++ joinWith sep ((z :: r) ++ [x])).length
          ≤ (y ++ sep ++ joinWith sep (z :: r)).length + x.length + sep.length
      rw [String.length_append, String.length_append, String.length_append,
        String.length_append]
      omega

lemma lstripCS_le (s : String) : (lstripCS s).length ≤ s.length := by
  have h := List.Sublist.length_le (List.dropWhile_sublist
    (l := s.data) (p := fun c => decide (c = ':' ∨ c = ' ')))
  exact h

lemma imgStep_le (a : List String) (img : Node) :
    (joinWith "\n" (PW.imgStep a img)).length
      ≤ (joinWith "\n" a).length + ((PW.image_to_markdown img).length + 1) := by
  unfold PW.imgStep
  dsimp only
  split
  · split
    · have h := joinWith_append_le "\n" (PW.image_to_markdown img) a
      have h1 : ("\n" : String).length = 1 := rfl
      omega
    · omega
  · omega

lemma imgFold_le (imgs : List Node) :
    ∀ a : List String,
      (joinWith "\n" (imgs.foldl PW.imgStep a)).length
        ≤ (joinWith "\n" a).length
          + (imgs.map (fun i => (PW.image_to_markdown i).length + 1)).sum := by
  induction imgs with
  | nil => intro a; simp
  | cons i r ih =>
    intro a
    simp only [List.foldl_cons, List.map_cons, List.sum_cons]
    have h1 := ih (PW.imgStep a i)
    have h2 := imgStep_le a i
    omega

lemma sibParts_le (a : List String) (n : Node) :
    (joinWith "\n" (PW.sibParts a n)).length
      ≤ (joinWith "\n" a).length + PW.sibBound n := by
  unfold PW.sibParts PW.sibBound
  dsimp only
  have h1 := imgFold_le (n.findAll fun m => m.tag == "img") a
  split
  · have h2 := joinWith_append_le "\n" (lstripCS (PW.extract_text_content n))
      ((n.findAll fun m => m.tag == "img").foldl PW.imgStep a)
    have h3 := lstripCS_le (PW.extract_text_content n)
    have h4 : ("\n" : String).length = 1 := rfl
    omega
  · omega

lemma gfdGo_le (sibs : List Node) :
    ∀ a : List String, (joinWith "\n" a).length ≤ 1000 →
      (joinWith "\n" (PW.gfdGo sibs a)).length ≤ 1000 + PW.maxSibBound sibs := by
  induction sibs with
  | nil =>
    intro a ha
    simpa [PW.gfdGo, PW.maxSibBound] using ha
  | cons n r ih =>
    intro a ha
    unfold PW.gfdGo
    dsimp only
    split
    · simp only [PW.maxSibBound]
      omega
    · split
      case isTrue h =>
        have h1 := sibParts_le a n
        simp only [PW.maxSibBound]
        omega
      case isFalse h =>
        have h1 := ih (PW.sibParts a n) (Nat.le_of_not_lt h)
        simp only [PW.maxSibBound]
        omega

lemma joinWith2_le (l : List String) :
    (joinWith "\n\n" l).length ≤ (joinWith "\n" l).length + l.length := by
  induction l with
  | nil => simp [joinWith]
  | cons x t ih =>
    cases t with
    | nil => simp [joinWith]
    | cons y r =>
      simp only [joinWith, String.length_append, List.length_cons] at ih ⊢
      have h2 : ("\n\n" : String).length = 2 := rfl
      have h1 : ("\n" : String).length = 1 := rfl
      omega

/-- C6 (amended): in the playwright variant the scan stops once the
newline-join of the collected parts exceeds 1000 characters, checked after
each processed sibling; since a sibling can add both image blocks and a text
block, and the returned description joins parts with blank lines while the
cap check joins with single newlines, the returned description length is
bounded by 1000 plus the largest single-sibling contribution plus one
character per collected part. -/
theorem c6_spec (foll : List Node) :
    (PW.get_following_description foll).length
      ≤ 1000 + PW.maxSibBound (foll.filter Node.isElem) + (PW.gfdParts foll).length := by
  unfold PW.get_following_description
  dsimp only
  split
  · simp
  · have h1 := gfdGo_le (foll.filter Node.isElem) [] (by simp [joinWith])
    have h2 := joinWith2_le (PW.gfdParts foll)
    unfold PW.gfdParts at h2 ⊢
    omega

/-- One `<p>abcdefghijk</p>` block (11 characters of text). -/
def capBlock : Node := .elem "p" [] [.text "abcdefghijk"]

/-- 150 such blocks following a heading. -/
def c6doc : List Node := List.replicate 150 capBlock

lemma featureParts_capBlock (l : List Node) :
    Static.featureParts (capBlock :: l) = "abcdefghijk" :: Static.featureParts l := rfl

lemma featureParts_replicate :
    ∀ n, Static.featureParts (List.replicate n capBlock)
      = List.replicate n "abcdefghijk" := by
  intro n
  induction n with
  | zero => rfl
  | succ k ih =>
    rw [List.replicate_succ, featureParts_capBlock, ih, List.replicate_succ]

lemma joinWith_replicate_len :
    ∀ n, (joinWith "\n\n" (List.replicate (n + 1) "abcdefghijk")).length
      = 11 + 13 * n := by
  intro n
  induction n with
  | zero => rfl
  | succ k ih =>
    rw [List.replicate_succ, List.replicate_succ]
    show ("abcdefghijk" ++ "\n\n"
        ++ joinWith "\n\n" ("abcdefghijk" :: List.replicate k "abcdefghijk")).length = _
    rw [String.length_append, String.length_append, ← List.replicate_succ, ih]
    have hx : ("abcdefghijk" : String).length = 11 := rfl
    have hy : ("\n\n" : String).length = 2 := rfl
    omega

/-- C6 (counterexample): the static variant's description scan
(`parse_feature`) has no cap at all: with 150 paragraph blocks of 11
characters each it returns a feature whose description has 1948 characters,
exceeding even the most generous configured cap (1500) plus the length of any
single block (11). -/
theorem c6_counterexample :
    (Static.parse_feature (.elem "h4" [] [.text "Feature Cap"]) c6doc "General").map
        (fun f => f.description.length) = some 1948 ∧
    1500 + 11 < 1948 := by
  constructor
  · have h1 : (joinWith "\n\n" (List.replicate 150 "abcdefghijk")).length = 1948 := by
      have h2 := joinWith_replicate_len 149
      have h3 : List.replicate (149 + 1) "abcdefghijk"
          = List.replicate 150 "abcdefghijk" := rfl
      rw [h3] at h2
      omega
    show some ((joinWith "\n\n" (Static.featureParts c6doc)).length) = some 1948
    rw [show Static.featureParts c6doc = List.replicate 150 "abcdefghijk" from
      featureParts_replicate 150, h1]
  · norm_num

